import Mathlib

/-!
Shallow embedding of the Nordique LMC analyzer core, i.e. of the two
source files `lmc_calculator.py` (class `LMCCalculator`) and
`consensus_analyzer.py` (class `ConsensusAnalyzer`).

Modelling conventions:
* Python floats are modelled as exact rationals (`ℚ`); the only
  transcendental computation, Shannon entropy (`math.log2`), is modelled
  over `ℝ`.
* Python dicts preserve insertion order, so they are modelled as
  association lists; `collections.Counter` becomes a list of
  (key, count) pairs in first-occurrence order; a Python `set` of
  strings becomes a deduplicated list (only membership and size are
  ever used).
* `list.sort(key=…, reverse=True)` is a stable descending sort; it is
  modelled by a stable insertion sort by key, which computes the same
  list.
* The regex tokenizers `\b[a-zàâäéèêëïîôöùûüœæç]{n,}\b` and `\b\w{n,}\b`
  match exactly the maximal word-character runs that consist of letters
  of the given class and have the required length; `re.split` and the
  literal-alternation `re.findall` are modelled by direct scans.
-/

attribute [local semireducible] Rat.mul Rat.add Rat.sub Rat.inv Rat.ofScientific

/-- Whitespace characters of the Python `\s` class. -/
def isSpaceChar (c : Char) : Bool :=
  c = ' ' || c = '\t' || c = '\n' || c = '\r' || c = '\x0b' || c = '\x0c'

/-- Lowercase mapping (`str.lower`) for the characters the analyzed texts
use: ASCII plus the uppercase forms of the accented letters of the
source's French tokenizer class. -/
def lowerChar (c : Char) : Char :=
  if 'A' ≤ c ∧ c ≤ 'Z' then Char.ofNat (c.toNat + 32)
  else if c = 'À' then 'à'
  else if c = 'Â' then 'â'
  else if c = 'Ä' then 'ä'
  else if c = 'É' then 'é'
  else if c = 'È' then 'è'
  else if c = 'Ê' then 'ê'
  else if c = 'Ë' then 'ë'
  else if c = 'Ï' then 'ï'
  else if c = 'Î' then 'î'
  else if c = 'Ô' then 'ô'
  else if c = 'Ö' then 'ö'
  else if c = 'Ù' then 'ù'
  else if c = 'Û' then 'û'
  else if c = 'Ü' then 'ü'
  else if c = 'Œ' then 'œ'
  else if c = 'Æ' then 'æ'
  else if c = 'Ç' then 'ç'
  else c

/-- `text.lower()`. -/
def lowerStr (s : String) : String := ⟨s.data.map lowerChar⟩

/-- The accented letter class `[a-zàâäéèêëïîôöùûüœæç]` of the source regexes. -/
def isFrLetter (c : Char) : Bool :=
  "abcdefghijklmnopqrstuvwxyzàâäéèêëïîôöùûüœæç".data.contains c

/-- Python `\w` word characters as they occur in the analyzed texts:
ASCII alphanumerics, underscore, and the accented letters. -/
def isWordChar (c : Char) : Bool := c.isAlphanum || c = '_' || isFrLetter c

/-- Maximal runs of word characters of a text: the candidate regex tokens.
The first argument accumulates the current run in reverse. -/
def wordRuns : List Char → List Char → List (List Char)
  | run, [] => if run.isEmpty then [] else [run.reverse]
  | run, c :: rest =>
    if isWordChar c then wordRuns (c :: run) rest
    else if run.isEmpty then wordRuns [] rest
    else run.reverse :: wordRuns [] rest

/-- `re.findall(r'\b[a-zàâäéèêëïîôöùûüœæç]{minLen,}\b', text.lower())`:
the maximal word-character runs of the lowered text that consist only of
letters of the French class and have length ≥ `minLen`. -/
def findWords (minLen : ℕ) (text : String) : List String :=
  (wordRuns [] (lowerStr text).data).filterMap fun r =>
    if r.all isFrLetter ∧ minLen ≤ r.length then some (String.mk r) else none

/-- `re.findall(r'\b\w{minLen,}\b', text.lower())` (used by `claims_similarity`):
the maximal word-character runs of length ≥ `minLen`. -/
def findTokens (minLen : ℕ) (text : String) : List String :=
  (wordRuns [] (lowerStr text).data).filterMap fun r =>
    if minLen ≤ r.length then some (String.mk r) else none

/-- Distinct elements in first-occurrence order (the insertion order of a
Python dict or set built by a left-to-right scan). -/
def firstUniq (l : List String) : List String :=
  l.foldl (fun acc w => if w ∈ acc then acc else acc ++ [w]) []

/-- Python `Counter(ws)` as (word, count) pairs in first-occurrence order. -/
def wordCounter (ws : List String) : List (String × ℕ) :=
  (firstUniq ws).map fun w => (w, ws.count w)

/-- The keys of a counter. -/
def counterKeys (c : List (String × ℕ)) : List String := c.map Prod.fst

/-- `counter[w]` (0 when absent, as for a `Counter`). -/
def counterVal (c : List (String × ℕ)) (w : String) : ℕ :=
  ((c.find? fun p => p.1 == w).map Prod.snd).getD 0

/-- Stable insertion of `a` into a list sorted descending by `key`: `a` is
placed before the first element with a strictly smaller or equal key seen
from the right — i.e. before the first `b` with `key b ≤ key a`. Combined
with `sortKeyDesc` below (which inserts earlier input elements later),
this reproduces exactly Python's stable `list.sort(key=…, reverse=True)`. -/
def insertKeyDesc {α β : Type} [LinearOrder β] (key : α → β) (a : α) : List α → List α
  | [] => [a]
  | b :: bs => if key b ≤ key a then a :: b :: bs else b :: insertKeyDesc key a bs

/-- Stable descending sort by key (Python `list.sort(key=…, reverse=True)`). -/
def sortKeyDesc {α β : Type} [LinearOrder β] (key : α → β) : List α → List α
  | [] => []
  | a :: l => insertKeyDesc key a (sortKeyDesc key l)

/-- `Counter.most_common(n)`: stable descending sort by count, first `n`
entries (CPython documents `nlargest` as `sorted(…, reverse=True)[:n]`). -/
def mostCommon (n : ℕ) (c : List (String × ℕ)) : List (String × ℕ) :=
  (sortKeyDesc Prod.snd c).take n

/-- Generic `re.split` on delimiters made of a starting character plus a
maximal run of a character class: `delim c rest` returns the class of the
delimiter's tail run when a delimiter starts at `c`, else `none`. The
second argument is the class currently being consumed (greedily), if any. -/
def reSplitAux (delim : Char → List Char → Option (Char → Bool)) :
    List Char → Option (Char → Bool) → List Char → List (List Char)
  | acc, _, [] => [acc.reverse]
  | acc, skip?, c :: rest =>
    match skip? with
    | some sk =>
      if sk c then reSplitAux delim acc (some sk) rest
      else
        match delim c rest with
        | some sk2 => acc.reverse :: reSplitAux delim [] (some sk2) rest
        | none => reSplitAux delim (c :: acc) none rest
    | none =>
      match delim c rest with
      | some sk2 => acc.reverse :: reSplitAux delim [] (some sk2) rest
      | none => reSplitAux delim (c :: acc) none rest

/-- `re.split` over a whole character list. -/
def reSplit (delim : Char → List Char → Option (Char → Bool)) (s : List Char) :
    List (List Char) :=
  reSplitAux delim [] none s

/-- The delimiter `[.!?]\s+` used by `calculate_coherence`'s sentence split:
a sentence punctuation character followed by at least one whitespace
character (the whitespace run is consumed greedily). -/
def coherenceDelim (c : Char) (rest : List Char) : Option (Char → Bool) :=
  if (c = '.' || c = '!' || c = '?') &&
      (match rest with | r :: _ => isSpaceChar r | [] => false) then
    some isSpaceChar
  else none

/-- The delimiter `[.!?]\s+|\n{2,}` used by `split_sentences`; the first
alternative wins, as in the regex. -/
def sentenceDelim (c : Char) (rest : List Char) : Option (Char → Bool) :=
  match coherenceDelim c rest with
  | some sk => some sk
  | none =>
    if c = '\n' && (match rest with | r :: _ => decide (r = '\n') | [] => false) then
      some fun d => d = '\n'
    else none

/-- Python `str.strip()`. -/
def stripStr (s : String) : String :=
  ⟨((s.data.dropWhile isSpaceChar).reverse.dropWhile isSpaceChar).reverse⟩

/-- `p` is a prefix of the second list. -/
def prefixMatch : List Char → List Char → Bool
  | [], _ => true
  | _ :: _, [] => false
  | a :: as, b :: bs => a == b && prefixMatch as bs

/-- Python's `sub in s` contiguous-substring test. -/
def containsSub (p : List Char) : List Char → Bool
  | [] => p.isEmpty
  | c :: t => prefixMatch p (c :: t) || containsSub p t

/-- Number of matches of `re.findall(p1|p2|…)` for literal alternatives:
scan left to right; at each position the first alternative that matches
wins and the matched text is skipped. The recursion is structural on a
fuel initialized to the text length (every step consumes ≥ 1 character,
so the fuel never runs out before the text does). -/
def countMatchesAux (pats : List (List Char)) : ℕ → List Char → ℕ
  | 0, _ => 0
  | _ + 1, [] => 0
  | fuel + 1, c :: t =>
    match pats.find? fun p => prefixMatch p (c :: t) with
    | some p => 1 + countMatchesAux pats fuel ((c :: t).drop p.length)
    | none => countMatchesAux pats fuel t

/-- Number of `re.findall` matches of the literal alternatives `pats`. -/
def countMatches (pats : List (List Char)) (s : List Char) : ℕ :=
  countMatchesAux pats s.length s

/-! ## LMCCalculator (`lmc_calculator.py`) -/

/-- The French stopword set of `LMCCalculator.__init__`. -/
def stopwords : List String :=
  ["cette", "comme", "dans", "pour", "avec", "sont", "leurs", "plus", "peut",
   "être", "fait", "permet", "avoir", "faire", "entre", "donc", "aussi", "ainsi",
   "selon", "toute", "tous", "était", "serait", "pourrait", "existe", "autres",
   "chaque", "peuvent", "encore", "toujours", "quelque", "certains", "plusieurs"]

/-- The six negation phrases (`\x27` is the ASCII apostrophe). -/
def negationPhrases : List String :=
  ["n\x27est pas", "ne sont pas", "n\x27a pas", "ne peut pas", "jamais", "aucun"]

/-- `[s.strip() for s in re.split(r'[.!?]\s+', text) if len(s) > 20]`
(the sentence list used by `calculate_coherence`; the length filter is
applied before stripping, as in the source). -/
def coherence_sentences (t : String) : List String :=
  ((reSplit coherenceDelim t.data).filter fun s => 20 < s.length).map fun s =>
    stripStr (String.mk s)

/-- The negation count of `calculate_coherence` (`re.findall` on the
lowered text). -/
def negationCount (t : String) : ℕ :=
  countMatches (negationPhrases.map String.data) (lowerStr t).data

/-- `1.0 - (len(unique_words) / max(len(words), 1))`. -/
def repetition_rate (t : String) : ℚ :=
  1 - ((firstUniq (findWords 4 t)).length : ℚ) / ((max (findWords 4 t).length 1 : ℕ) : ℚ)

/-- `min(avg_sentence_length / 20.0, 1.0)` with
`avg_sentence_length = len(words) / len(sentences)`. -/
def length_coherence (t : String) : ℚ :=
  min ((((findWords 4 t).length : ℚ) / ((coherence_sentences t).length : ℚ)) / 20) 1

/-- `len(content_words) / max(len(words), 1)`. -/
def content_ratio (t : String) : ℚ :=
  (((findWords 4 t).filter fun w => !(stopwords.contains w)).length : ℚ)
    / ((max (findWords 4 t).length 1 : ℕ) : ℚ)

/-- `min(len(negations) / 10.0, 0.1)`. -/
def negation_bonus (t : String) : ℚ := min ((negationCount t : ℚ) / 10) 0.1

/-- `LMCCalculator.calculate_coherence`. -/
def calculate_coherence (t : String) : ℚ :=
  if t.data = [] ∨ t.length < 50 then 0
  else if (coherence_sentences t).length < 2 then 0.5
  else
    repetition_rate t * 0.25 + length_coherence t * 0.35 +
      content_ratio t * 0.30 + negation_bonus t * 0.10

/-- `LMCCalculator.calculate_entropy` (Shannon entropy of the word
frequency distribution, normalized by 10 and clamped at 1). -/
noncomputable def calculate_entropy (t : String) : ℝ :=
  if t.data = [] ∨ t.length < 50 then 0
  else if findWords 3 t = [] then 0
  else
    let total : ℝ := ((findWords 3 t).length : ℝ)
    let entropy : ℝ :=
      ((wordCounter (findWords 3 t)).map fun p =>
        if 0 < (p.2 : ℝ) / total then
          -(((p.2 : ℝ) / total) * Real.logb 2 ((p.2 : ℝ) / total))
        else 0).sum
    min (entropy / 10) 1

/-- The result dict of `calculate_lmc_score`. -/
structure LMCScore where
  H : ℝ
  C : ℝ
  score : ℝ

/-- `LMCCalculator.calculate_lmc_score`; `epsilon` is the configurable
regularization constant stored on the calculator. -/
noncomputable def calculate_lmc_score (epsilon : ℝ) (t : String) : LMCScore :=
  { H := calculate_entropy t
    C := ((calculate_coherence t : ℚ) : ℝ)
    score := ((calculate_coherence t : ℚ) : ℝ) / (calculate_entropy t + epsilon) }

/-- `LMCCalculator.split_sentences`: split on `[.!?]\s+|\n{2,}`, keep the
pieces of (unstripped) length strictly between 20 and 500, stripped. -/
def split_sentences (t : String) : List String :=
  if t.data = [] then []
  else
    ((reSplit sentenceDelim t.data).filter fun s =>
      decide (20 < s.length ∧ s.length < 500)).map fun s => stripStr (String.mk s)

/-- The assertion markers of `extract_claims`. -/
def assertionMarkers : List String :=
  ["est ", "sont ", "représente", "correspond", "signifie", "implique",
   "démontre", "prouve", "permet", "cause", "entraîne", "résulte",
   "montre", "indique", "suggère", "confirme", "révèle", "favorise",
   "aide", "améliore", "réduit", "augmente", "consiste"]

/-- `LMCCalculator.extract_claims`: sentences whose lowered form contains
an assertion marker or a negation phrase, first 20. -/
def extract_claims (t : String) : List String :=
  if t.data = [] ∨ t.length < 100 then []
  else
    ((split_sentences t).filter fun s =>
      assertionMarkers.any (fun m => containsSub m.data (lowerStr s).data) ||
        negationPhrases.any fun m => containsSub m.data (lowerStr s).data).take 20

/-- `(i - j) + (j - i)`, i.e. `|i - j|` on ℕ. -/
def natDist (i j : ℕ) : ℕ := (i - j) + (j - i)

/-- The inner loop of `_edit_distance`: given the current character `c1` of
`s1`, the remaining characters of `s2`, the matching tail of the previous
row and the last value written to the current row, produce the rest of the
current row. -/
def lev_row_step (c1 : Char) : List Char → List ℕ → ℕ → List ℕ
  | c2 :: cs, p0 :: p1 :: ps, curj =>
    min (p1 + 1) (min (curj + 1) (p0 + if c1 = c2 then 0 else 1)) ::
      lev_row_step c1 cs (p1 :: ps)
        (min (p1 + 1) (min (curj + 1) (p0 + if c1 = c2 then 0 else 1)))
  | _, _, _ => []

/-- The outer loop of `_edit_distance`: fold the rows over the characters
of `s1` (the row index `i` is 0-based, as in `enumerate`). -/
def lev_loop (s2 : List Char) : List Char → List ℕ → ℕ → List ℕ
  | [], prev, _ => prev
  | c1 :: cs, prev, i => lev_loop s2 cs ((i + 1) :: lev_row_step c1 s2 prev (i + 1)) (i + 1)

/-- `_edit_distance` after the argument swap: requires `len(s1) ≥ len(s2)`. -/
def edit_distance_go (s1 s2 : List Char) : ℕ :=
  if s2.length = 0 then s1.length
  else (lev_loop s2 s1 (List.range (s2.length + 1)) 0).getLastD 0

/-- `LMCCalculator._edit_distance` (rolling-row Levenshtein distance). -/
def edit_distance (s1 s2 : List Char) : ℕ :=
  if s1.length < s2.length then edit_distance_go s2 s1 else edit_distance_go s1 s2

/-- `LMCCalculator.calculate_similarity` (normalized edit distance). -/
def calculate_similarity (t1 t2 : String) : ℚ :=
  if t1.data = [] ∨ t2.data = [] then 0
  else
    let longer := if t2.length < t1.length then t1 else t2
    let shorter := if t2.length < t1.length then t2 else t1
    if longer.length = 0 then 1
    else
      ((longer.length : ℚ) - (edit_distance (lowerStr longer).data (lowerStr shorter).data : ℕ))
        / (longer.length : ℚ)

/-- `LMCCalculator.claims_similarity` (Jaccard similarity on the sets of
`\w{4,}` tokens of the lowered claims). -/
def claims_similarity (c1 c2 : String) : ℚ :=
  if c1.data = [] ∨ c2.data = [] then 0
  else
    let words1 := firstUniq (findTokens 4 c1)
    let words2 := firstUniq (findTokens 4 c2)
    if words1 = [] ∨ words2 = [] then 0
    else
      let inter := (words1.filter fun w => words2.contains w).length
      let union := words1.length + (words2.filter fun w => !(words1.contains w)).length
      if 0 < union then (inter : ℚ) / (union : ℚ) else 0

/-! ## ConsensusAnalyzer (`consensus_analyzer.py`)

The input mapping `Dict[str, ResponseData]` is an insertion-ordered
Python dict; it is modelled as a list of (agent name, ResponseData)
pairs, iterated in order everywhere, exactly as the source iterates the
dict. -/

/-- The `ResponseData` dataclass. -/
structure ResponseData where
  name : String
  content : String
  H : ℚ
  C : ℚ
  score : ℚ
deriving DecidableEq

/-- The `Claim` dataclass (an affirmation with multi-agent support). -/
structure Claim where
  claim : String
  support : ℕ
  ais : List String
  confidence : ℚ
deriving DecidableEq

/-- The `Divergence` dataclass. -/
structure Divergence where
  ai : String
  concepts : List String
  score : ℚ
deriving DecidableEq

/-- The `EmergentInsight` dataclass. -/
structure EmergentInsight where
  concept1 : String
  concept2 : String
  ai1 : String
  ai2 : String
  similarity : ℚ
  rarity1 : ℚ
  rarity2 : ℚ
deriving DecidableEq

/-- The nested `result['consensus']` dict of `analyze_responses`. -/
structure ConsensusPart where
  concepts : List String
  claims : List Claim
  confidence : ℚ
deriving DecidableEq

/-- The result dict of `analyze_responses`; `insights` is the category
dict (empty in the degenerate branch, four fixed categories otherwise). -/
structure AnalysisResult where
  consensus : ConsensusPart
  divergences : List Divergence
  insights : List (String × List String)
  emergent_insights : List EmergentInsight
deriving DecidableEq

/-- The concatenated 4+-letter token stream of all agents, in input order
(`_extract_all_concepts` scans agents, then words, in exactly this order). -/
def allTokens (rs : List (String × ResponseData)) : List String :=
  rs.flatMap fun p => findWords 4 p.2.content

/-- The keys of the `all_words` dict of `_extract_all_concepts`, in
insertion order (first global occurrence). -/
def all_words (rs : List (String × ResponseData)) : List String :=
  firstUniq (allTokens rs)

/-- `all_words[w]['total']`: total occurrences across all agents. -/
def concept_total (rs : List (String × ResponseData)) (w : String) : ℕ :=
  (allTokens rs).count w

/-- `all_words[w]['ais']`: the set of agents whose text contains `w`,
as a deduplicated name list. -/
def concept_ais (rs : List (String × ResponseData)) (w : String) : List String :=
  firstUniq ((rs.filter fun p => (findWords 4 p.2.content).contains w).map Prod.fst)

/-- `ConsensusAnalyzer._find_consensus_concepts`: words present in at
least 50% of the agents with total count ≥ 3, sorted by total count
descending, top 30. -/
def find_consensus_concepts (rs : List (String × ResponseData)) : List String :=
  (sortKeyDesc (concept_total rs)
    ((all_words rs).filter fun w =>
      decide ((rs.length : ℚ) * 0.5 ≤ ((concept_ais rs w).length : ℚ) ∧
        3 ≤ concept_total rs w))).take 30

/-- `ConsensusAnalyzer._extract_all_claims`. -/
def extract_all_claims (rs : List (String × ResponseData)) : List (String × List String) :=
  rs.map fun p => (p.1, extract_claims p.2.content)

/-- The inner claim scan of `_find_consensus_claims`: scan the claims of
one later agent `ai2` against the seed `claim1`, returning the supporter
occurrences contributed by `ai2` (one per similar claim, as in the
source) and the updated `processed` set. -/
def scan_claims (thr : ℚ) (claim1 ai2 : String) :
    List String → List String → List String × List String
  | [], processed => ([], processed)
  | c2 :: cs, processed =>
    if c2 ∈ processed then scan_claims thr claim1 ai2 cs processed
    else if thr ≤ claims_similarity claim1 c2 then
      ((ai2 :: (scan_claims thr claim1 ai2 cs (c2 :: processed)).1),
        (scan_claims thr claim1 ai2 cs (c2 :: processed)).2)
    else scan_claims thr claim1 ai2 cs processed

/-- Scan all later agents for claims similar to the seed `claim1`. -/
def scan_later (thr : ℚ) (claim1 : String) :
    List (String × List String) → List String → List String × List String
  | [], processed => ([], processed)
  | (ai2, cs2) :: rest, processed =>
    ((scan_claims thr claim1 ai2 cs2 processed).1 ++
        (scan_later thr claim1 rest (scan_claims thr claim1 ai2 cs2 processed).2).1,
      (scan_later thr claim1 rest (scan_claims thr claim1 ai2 cs2 processed).2).2)

/-- Process the claims of the current agent `ai1` as cluster seeds, in
order; `rest` holds the later agents. Returns the clusters formed and
the updated `processed` set. -/
def process_agent_claims (thr : ℚ) (nResp : ℕ) (ai1 : String)
    (rest : List (String × List String)) :
    List String → List String → List Claim × List String
  | [], processed => ([], processed)
  | c1 :: cs, processed =>
    if c1 ∈ processed then process_agent_claims thr nResp ai1 rest cs processed
    else
      let r := scan_later thr c1 rest processed
      let supporting := ai1 :: r.1
      let tail := process_agent_claims thr nResp ai1 rest cs (c1 :: r.2)
      if 2 ≤ supporting.length then
        ({ claim := c1, support := supporting.length, ais := supporting,
           confidence := (supporting.length : ℚ) / (nResp : ℚ) } :: tail.1, tail.2)
      else tail

/-- The full greedy clustering loop of `_find_consensus_claims`. -/
def claims_clusters (thr : ℚ) (nResp : ℕ) :
    List (String × List String) → List String → List Claim
  | [], _ => []
  | (ai1, cs1) :: rest, processed =>
    (process_agent_claims thr nResp ai1 rest cs1 processed).1 ++
      claims_clusters thr nResp rest (process_agent_claims thr nResp ai1 rest cs1 processed).2

/-- `ConsensusAnalyzer._find_consensus_claims`: greedy single-pass
clustering, clusters with ≥ 2 supporter occurrences kept, sorted by
support descending, top 15. -/
def find_consensus_claims (thr : ℚ) (nResp : ℕ)
    (all_claims : List (String × List String)) : List Claim :=
  (sortKeyDesc (fun c => c.support) (claims_clusters thr nResp all_claims [])).take 15

/-- The `unique_concepts` list built in `_find_divergences` for one agent:
among the agent's 20 most frequent 4+-letter words, those not in the
consensus set with local frequency ≥ 2, in `most_common` order. -/
def unique_concepts (consensus : List String) (content : String) : List String :=
  ((mostCommon 20 (wordCounter (findWords 4 content))).filter fun wc =>
    !(consensus.contains wc.1) && decide (2 ≤ wc.2)).map Prod.fst

/-- The `Divergence` record built in `_find_divergences` for one agent
(`none` when the agent has no unique concepts). Note that the score uses
the length of `unique_concepts` before the cap to 10. -/
def divergence_for (consensus : List String) (name : String) (r : ResponseData) :
    Option Divergence :=
  if unique_concepts consensus r.content = [] then none
  else some { ai := name, concepts := (unique_concepts consensus r.content).take 10,
              score := ((unique_concepts consensus r.content).length : ℚ)
                / ((max consensus.length 1 : ℕ) : ℚ) }

/-- `ConsensusAnalyzer._find_divergences`: one entry per agent with unique
concepts, sorted by score descending. -/
def find_divergences (rs : List (String × ResponseData)) (consensus : List String) :
    List Divergence :=
  sortKeyDesc (fun d => d.score) (rs.filterMap fun p => divergence_for consensus p.1 p.2)

/-- The `ai_concepts` dict of `_find_emergent_insights`: per-agent counters
of 4+-letter words. -/
def ai_concepts (rs : List (String × ResponseData)) : List (String × List (String × ℕ)) :=
  rs.map fun p => (p.1, wordCounter (findWords 4 p.2.content))

/-- `total_freq1 = sum(1 for ai_c in ai_concepts.values() if concept in ai_c)`. -/
def agents_containing (allc : List (String × List (String × ℕ))) (w : String) : ℕ :=
  allc.countP fun p => (counterKeys p.2).contains w

/-- The insights produced by one ordered agent pair in
`_find_emergent_insights`. The source iterates the common concepts as a
Python set intersection, whose iteration order is implementation-defined;
the model iterates them in the first agent's counter order (the produced
set of insights is the same). -/
def insights_for (n : ℕ) (allc : List (String × List (String × ℕ)))
    (ai1 : String) (c1 : List (String × ℕ)) (ai2 : String) (c2 : List (String × ℕ)) :
    List EmergentInsight :=
  ((counterKeys c1).filter fun w => (counterKeys c2).contains w).filterMap fun concept =>
    if (agents_containing allc concept : ℚ) ≤ (n : ℚ) * 0.5 ∧
        2 ≤ counterVal c1 concept ∧ 2 ≤ counterVal c2 concept then
      some { concept1 := concept, concept2 := concept, ai1 := ai1, ai2 := ai2,
             similarity := ((min (counterVal c1 concept) (counterVal c2 concept) : ℕ) : ℚ)
               / ((max (counterVal c1 concept) (counterVal c2 concept) : ℕ) : ℚ),
             rarity1 := 1 / (agents_containing allc concept : ℚ),
             rarity2 := 1 / (agents_containing allc concept : ℚ) }
    else none

/-- The ordered pair loop of `_find_emergent_insights`. -/
def emergent_pairs (n : ℕ) (allc : List (String × List (String × ℕ))) :
    List (String × List (String × ℕ)) → List EmergentInsight
  | [] => []
  | (ai1, c1) :: rest =>
    (rest.flatMap fun q => insights_for n allc ai1 c1 q.1 q.2) ++ emergent_pairs n allc rest

/-- `ConsensusAnalyzer._find_emergent_insights`: rare concepts shared by a
pair of agents, sorted by rarity descending, top 10. -/
def find_emergent_insights (rs : List (String × ResponseData)) : List EmergentInsight :=
  (sortKeyDesc (fun i => i.rarity1)
    (emergent_pairs rs.length (ai_concepts rs) (ai_concepts rs))).take 10

/-- The fixed category keyword lists of `_categorize_insights`, in the
fixed dict order of the source. -/
def categoryKeywords : List (String × List String) :=
  [("structure", ["système", "architecture", "organisation", "structure", "modèle", "composant"]),
   ("processus", ["processus", "méthode", "approche", "mécanisme", "fonctionnement", "évolution"]),
   ("impact", ["effet", "impact", "conséquence", "résultat", "influence", "changement"]),
   ("relation", ["relation", "lien", "connexion", "interaction", "corrélation", "dépendance"])]

/-- `any(kw in concept for kw in kws)` (substring test). -/
def conceptMatches (kws : List String) (concept : String) : Bool :=
  kws.any fun kw => containsSub kw.data concept.data

/-- Category assignment with first-match-wins (`break`): a concept lands
in a category only when no earlier category matched it. `previous` holds
the keyword lists of the categories already handled. -/
def categorize_go (consensus : List String) (previous : List (List String)) :
    List (String × List String) → List (String × List String)
  | [] => []
  | (name, kws) :: rest =>
    (name, consensus.filter fun w =>
        conceptMatches kws w && !(previous.any fun pk => conceptMatches pk w)) ::
      categorize_go consensus (kws :: previous) rest

/-- `ConsensusAnalyzer._categorize_insights` (the `responses` parameter of
the source is unused there and omitted here). -/
def categorize_insights (consensus : List String) : List (String × List String) :=
  categorize_go consensus [] categoryKeywords

/-- `ConsensusAnalyzer._calculate_consensus_confidence`. -/
def calculate_consensus_confidence (nConcepts nClaims nAis : ℕ) : ℚ :=
  if nAis < 2 then 0
  else min (min ((nConcepts : ℚ) / 20) 1 * 0.6 + min ((nClaims : ℚ) / 10) 1 * 0.4) 1

/-- `ConsensusAnalyzer.analyze_responses`; `thr` is the configurable
`similarity_threshold` stored on the analyzer (default 0.5). -/
def analyze_responses (thr : ℚ) (rs : List (String × ResponseData)) : AnalysisResult :=
  if rs.length < 2 then
    { consensus := { concepts := [], claims := [], confidence := 0 },
      divergences := [], insights := [], emergent_insights := [] }
  else
    { consensus :=
        { concepts := find_consensus_concepts rs,
          claims := find_consensus_claims thr rs.length (extract_all_claims rs),
          confidence := calculate_consensus_confidence
            (find_consensus_concepts rs).length
            (find_consensus_claims thr rs.length (extract_all_claims rs)).length
            rs.length },
      divergences := find_divergences rs (find_consensus_concepts rs),
      insights := categorize_insights (find_consensus_concepts rs),
      emergent_insights := find_emergent_insights rs }

/-! ## Helper lemmas -/

theorem mem_insertKeyDesc {α β : Type} [LinearOrder β] (key : α → β) (a x : α)
    (l : List α) : x ∈ insertKeyDesc key a l ↔ x = a ∨ x ∈ l := by
  induction l with
  | nil => simp [insertKeyDesc]
  | cons b bs ih =>
    simp only [insertKeyDesc]
    split
    · simp [List.mem_cons]
    · simp only [List.mem_cons, ih]
      tauto

theorem mem_sortKeyDesc {α β : Type} [LinearOrder β] (key : α → β) (x : α)
    (l : List α) : x ∈ sortKeyDesc key l ↔ x ∈ l := by
  induction l with
  | nil => simp [sortKeyDesc]
  | cons a l ih => simp only [sortKeyDesc, mem_insertKeyDesc, List.mem_cons, ih]

theorem pairwise_insertKeyDesc {α β : Type} [LinearOrder β] (key : α → β) (a : α)
    {l : List α} (h : l.Pairwise fun p q => key q ≤ key p) :
    (insertKeyDesc key a l).Pairwise fun p q => key q ≤ key p := by
  induction l with
  | nil => simp [insertKeyDesc]
  | cons b bs ih =>
    rcases List.pairwise_cons.1 h with ⟨hb, hbs⟩
    simp only [insertKeyDesc]
    split
    · rename_i hba
      refine List.pairwise_cons.2 ⟨?_, h⟩
      intro x hx
      rcases List.mem_cons.1 hx with rfl | hx
      · exact hba
      · exact le_trans (hb x hx) hba
    · rename_i hba
      refine List.pairwise_cons.2 ⟨?_, ih hbs⟩
      intro x hx
      rcases (mem_insertKeyDesc key a x bs).1 hx with rfl | hx
      · exact le_of_lt (not_le.1 hba)
      · exact hb x hx

theorem pairwise_sortKeyDesc {α β : Type} [LinearOrder β] (key : α → β)
    (l : List α) : (sortKeyDesc key l).Pairwise fun p q => key q ≤ key p := by
  induction l with
  | nil => simp [sortKeyDesc]
  | cons a l ih => exact pairwise_insertKeyDesc key a ih

/-- Every entry of a word counter carries the count of its own key. -/
theorem wordCounter_snd_eq_count (ws : List String) :
    ∀ q ∈ wordCounter ws, q.2 = ws.count q.1 := by
  intro q hq
  rcases List.mem_map.1 hq with ⟨w, _, rfl⟩
  rfl

/-- The components of `calculate_coherence` are bounded above, so the
weighted sum is bounded by 0.91 and in particular is always below 1. -/
theorem repetition_rate_le_one (t : String) : repetition_rate t ≤ 1 := by
  unfold repetition_rate
  have h : (0 : ℚ) ≤ ((firstUniq (findWords 4 t)).length : ℚ)
      / ((max (findWords 4 t).length 1 : ℕ) : ℚ) := by positivity
  linarith

theorem length_coherence_le_one (t : String) : length_coherence t ≤ 1 :=
  min_le_right _ _

theorem content_ratio_le_one (t : String) : content_ratio t ≤ 1 := by
  unfold content_ratio
  rw [div_le_one (by positivity)]
  · exact_mod_cast le_trans (List.length_filter_le _ _) (le_max_left _ _)

theorem negation_bonus_le (t : String) : negation_bonus t ≤ 0.1 :=
  min_le_right _ _

theorem calculate_coherence_lt_one (t : String) : calculate_coherence t < 1 := by
  unfold calculate_coherence
  split
  · norm_num
  · split
    · norm_num
    · have h1 := repetition_rate_le_one t
      have h2 := length_coherence_le_one t
      have h3 := content_ratio_le_one t
      have h4 := negation_bonus_le t
      have m1 : repetition_rate t * 0.25 ≤ 1 * 0.25 :=
        mul_le_mul_of_nonneg_right h1 (by norm_num)
      have m2 : length_coherence t * 0.35 ≤ 1 * 0.35 :=
        mul_le_mul_of_nonneg_right h2 (by norm_num)
      have m3 : content_ratio t * 0.30 ≤ 1 * 0.30 :=
        mul_le_mul_of_nonneg_right h3 (by norm_num)
      have m4 : negation_bonus t * 0.10 ≤ 0.1 * 0.10 :=
        mul_le_mul_of_nonneg_right h4 (by norm_num)
      nlinarith [m1, m2, m3, m4]

/-- The reference row of the self-distance invariant: the Levenshtein row
for prefixes of the same string is `|i - j|`. `distRow i j len` is the
list `[natDist i j, natDist i (j+1), …]` of length `len`. -/
def distRow (i : ℕ) : ℕ → ℕ → List ℕ
  | _, 0 => []
  | j, len + 1 => natDist i j :: distRow i (j + 1) len

theorem distRow_zero_eq_range (len : ℕ) : ∀ j : ℕ, distRow 0 j len = List.range' j len := by
  induction len with
  | zero => intro j; rfl
  | succ n ih =>
    intro j
    rw [distRow, List.range'_succ, ih (j + 1)]
    congr 1
    unfold natDist
    omega

theorem getLastD_distRow (len : ℕ) : ∀ (i j d : ℕ),
    (distRow i j (len + 1)).getLastD d = natDist i (j + len) := by
  induction len with
  | zero => intro i j d; simp [distRow]
  | succ n ih =>
    intro i j d
    rw [distRow, List.getLastD_cons, ih i (j + 1) (natDist i j)]
    congr 1
    omega

theorem lev_row_step_dist (s : List Char) (i : ℕ) (hi : i < s.length) :
    ∀ (t : List Char) (j : ℕ), s.drop j = t → ∀ cur : ℕ, cur = natDist (i + 1) j →
      lev_row_step (s.get ⟨i, hi⟩) t (distRow i j (t.length + 1)) cur
        = distRow (i + 1) (j + 1) t.length := by
  intro t
  induction t with
  | nil => intro j _ cur _; rfl
  | cons c2 ts ih =>
    intro j hj cur hcur
    have hjlen : j < s.length := by
      by_contra hle
      rw [List.drop_eq_nil_iff.2 (by omega)] at hj
      exact List.cons_ne_nil _ _ hj.symm
    have hdj := List.drop_eq_getElem_cons hjlen
    rw [hj] at hdj
    have hc2 : c2 = s[j] := (List.cons.inj hdj).1
    have hts : s.drop (j + 1) = ts := (List.cons.inj hdj).2.symm
    show lev_row_step (s.get ⟨i, hi⟩) (c2 :: ts)
        (natDist i j :: natDist i (j + 1) :: distRow i (j + 2) ts.length) cur
      = distRow (i + 1) (j + 1) (ts.length + 1)
    rw [lev_row_step]
    have hval : min (natDist i (j + 1) + 1)
        (min (cur + 1) (natDist i j + if s.get ⟨i, hi⟩ = c2 then 0 else 1))
        = natDist (i + 1) (j + 1) := by
      by_cases hij : i = j
      · subst hij
        have : s.get ⟨i, hi⟩ = c2 := by rw [hc2]; rfl
        rw [if_pos this]
        unfold natDist at *
        omega
      · have : (if s.get ⟨i, hi⟩ = c2 then 0 else 1) ≤ 1 := by split <;> omega
        unfold natDist at *
        omega
    rw [hval, distRow]
    congr 1
    exact ih (j + 1) hts (natDist (i + 1) (j + 1)) rfl

theorem lev_loop_dist (s : List Char) :
    ∀ (u : List Char) (i : ℕ), i ≤ s.length → s.drop i = u →
      lev_loop s u (distRow i 0 (s.length + 1)) i = distRow s.length 0 (s.length + 1) := by
  intro u
  induction u with
  | nil =>
    intro i hile hdrop
    have h1 : s.length ≤ i := List.drop_eq_nil_iff.1 hdrop
    have h2 : i = s.length := le_antisymm hile h1
    rw [lev_loop, h2]
  | cons c1 us ih =>
    intro i hile hdrop
    have hi : i < s.length := by
      by_contra hle
      rw [List.drop_eq_nil_iff.2 (by omega)] at hdrop
      exact List.cons_ne_nil _ _ hdrop.symm
    have hdj := List.drop_eq_getElem_cons hi
    rw [hdrop] at hdj
    have hc1 : c1 = s[i] := (List.cons.inj hdj).1
    have hus : s.drop (i + 1) = us := (List.cons.inj hdj).2.symm
    rw [lev_loop, hc1]
    have hrow := lev_row_step_dist s i hi s 0 (List.drop_zero s) (i + 1)
      (by unfold natDist; omega)
    have hshape : s.get ⟨i, hi⟩ = s[i] := rfl
    rw [hshape] at hrow
    rw [hrow]
    have hcons : (i + 1) :: distRow (i + 1) 1 s.length = distRow (i + 1) 0 (s.length + 1) := by
      rw [distRow]
      congr 1
      unfold natDist
      omega
    rw [hcons]
    exact ih (i + 1) hi hus

theorem edit_distance_self (s : List Char) (hs : s ≠ []) : edit_distance s s = 0 := by
  unfold edit_distance
  rw [if_neg (lt_irrefl _)]
  unfold edit_distance_go
  have hlen : s.length ≠ 0 := fun h => hs (List.length_eq_zero.1 h)
  rw [if_neg hlen]
  have hrange : List.range (s.length + 1) = distRow 0 0 (s.length + 1) := by
    rw [distRow_zero_eq_range, List.range_eq_range']
  rw [hrange, lev_loop_dist s s 0 (Nat.zero_le _) (List.drop_zero s),
    getLastD_distRow s.length s.length 0 0]
  unfold natDist
  omega

/-- `calculate_similarity` of a non-empty text with itself is exactly 1. -/
theorem calculate_similarity_self (a : String) (ha : a ≠ "") :
    calculate_similarity a a = 1 := by
  have hdata : a.data ≠ [] := by
    intro h
    exact ha (String.ext (h.trans (by rfl)))
  have hlen : a.length ≠ 0 := by
    intro h
    exact hdata (List.length_eq_zero.1 h)
  unfold calculate_similarity
  rw [if_neg (by simp [hdata])]
  simp only [lt_irrefl, if_false]
  rw [if_neg hlen]
  have hlower : (lowerStr a).data ≠ [] := by
    simp [lowerStr, hdata]
  rw [edit_distance_self _ hlower]
  rw [Nat.cast_zero, sub_zero, div_self (by exact_mod_cast hlen)]

/-! ## Concrete inputs used by counterexamples and witnesses -/

set_option maxRecDepth 20000

/-- Texts for the two agents of the C1 failing input (103 and 100
characters): every sentence contains the marker `est ` and has the
4+-letter token set {alpha, beta, gamma, delta}, so bob contributes two
claims similar to alice's single seed claim. -/
def textA1 : String :=
  "alpha beta gamma delta est alpha beta gamma delta est alpha beta gamma delta est alpha beta gamma delta"

def textB1 : String :=
  "alpha beta gamma delta est alpha beta gamma delta. alpha beta gamma delta est gamma delta alpha beta"

def inputC1 : List (String × ResponseData) :=
  [("alice", { name := "alice", content := textA1, H := 0, C := 0, score := 0 }),
   ("bob", { name := "bob", content := textB1, H := 0, C := 0, score := 0 })]

/-- Text for the C2 counterexample: 11 distinct 4-letter words, each with
local frequency 2, none reaching total frequency 3 (109 characters). -/
def textA2 : String :=
  "aaaa aaaa bbbb bbbb cccc cccc dddd dddd eeee eeee ffff ffff gggg gggg hhhh hhhh iiii iiii jjjj jjjj kkkk kkkk"

def inputC2 : List (String × ResponseData) :=
  [("alice", { name := "alice", content := textA2, H := 0, C := 0, score := 0 }),
   ("bob", { name := "bob", content := "zzzz", H := 0, C := 0, score := 0 })]

/-- The single divergence `analyze_responses` produces on `inputC2`. -/
def dC2 : Divergence :=
  { ai := "alice",
    concepts := ["aaaa", "bbbb", "cccc", "dddd", "eeee", "ffff", "gggg", "hhhh", "iiii", "jjjj"],
    score := 11 }

/-- Four agents for the C10 witness: anna and bert share the rare concept
"zzzz" with local frequency 2 each; carl and dave share nothing. -/
def inputC10 : List (String × ResponseData) :=
  [("anna", { name := "anna", content := "zzzz zzzz", H := 0, C := 0, score := 0 }),
   ("bert", { name := "bert", content := "zzzz zzzz", H := 0, C := 0, score := 0 }),
   ("carl", { name := "carl", content := "cccc", H := 0, C := 0, score := 0 }),
   ("dave", { name := "dave", content := "dddd", H := 0, C := 0, score := 0 })]

/-- The single emergent insight `analyze_responses` produces on `inputC10`. -/
def insC10 : EmergentInsight :=
  { concept1 := "zzzz", concept2 := "zzzz", ai1 := "anna", ai2 := "bert",
    similarity := 1, rarity1 := 1 / 2, rarity2 := 1 / 2 }

/-- A 58-character text with zero qualifying sentences under the
20-to-500 rule of `split_sentences` (every piece has 13 characters there),
but two sentences longer than 20 characters under `calculate_coherence`'s
own split, which does not break on double newlines. -/
def textC4x : String :=
  "cccccc cccccc\n\ncccccc cccccc. dddddd dddddd\n\ndddddd dddddd"

/-- A 54-character text forming a single sentence. -/
def textC4w : String := "aaaa bbbb cccc dddd eeee ffff gggg hhhh iiii jjjj kkkk"

/-! ## Claim theorems -/

/-- C1 (failing evaluation): on the two-agent input `inputC1` the single
consensus claim produced by `analyze_responses` has `support = 3 = len(ais)`
(bob is counted once per similar claim), so `confidence = 3/2 > 1`,
contradicting the claimed bound `confidence ∈ (0,1]`. -/
theorem C1_failing_eval :
    ((analyze_responses 0.5 inputC1).consensus.claims.map fun c =>
      (c.support, c.ais.length, c.confidence)) = [(3, 3, 3 / 2)] ∧
    ¬ ((3 : ℚ) / 2 ≤ 1) := by
  decide

/-- C3 (amended): `calculate_similarity(a,a) = 1` for every non-empty `a`,
and `calculate_similarity("",x) = 0` for every `x`, including `x = ""`:
the empty-operand guard fires before the `len(longer) == 0` branch, so two
empty texts give 0, not 1. -/
theorem C3_similarity_spec (a x : String) :
    (a ≠ "" → calculate_similarity a a = 1) ∧
    calculate_similarity "" "" = 0 ∧
    (x ≠ "" → calculate_similarity "" x = 0) := by
  refine ⟨fun ha => calculate_similarity_self a ha, by decide, fun _ => ?_⟩
  unfold calculate_similarity
  rw [if_pos (Or.inl (by decide))]

/-- C3 counterexample: the claim asserts `calculate_similarity("","") = 1.0`,
but the code returns 0.0. -/
theorem C3_counterexample :
    calculate_similarity "" "" = 0 ∧ (0 : ℚ) ≠ 1 :=
  ⟨by decide, by norm_num⟩

theorem C3_witness :
    calculate_similarity "ab" "ab" = 1 ∧ calculate_similarity "" "x" = 0 :=
  ⟨(C3_similarity_spec "ab" "x").1 (by decide),
   (C3_similarity_spec "ab" "x").2.2 (by decide)⟩

/-- C4 (amended): for every text of length ≥ 50 which, split on
`[.!?]\s+` only, has at most one piece longer than 20 characters
(`calculate_coherence`'s own sentence rule — not the 20-to-500 rule of
`split_sentences`), `calculate_coherence` returns exactly 0.5. -/
theorem C4_coherence_half (t : String) (h50 : 50 ≤ t.length)
    (hs : (coherence_sentences t).length ≤ 1) : calculate_coherence t = 0.5 := by
  have hcond : ¬(t.data = [] ∨ t.length < 50) := by
    rintro (hnil | hlen)
    · have h0 : t.length = 0 := by simp [String.length, hnil]
      omega
    · omega
  unfold calculate_coherence
  rw [if_neg hcond, if_pos (by omega : (coherence_sentences t).length < 2)]

/-- C4 counterexample: `textC4x` has length 58 ≥ 50 and zero qualifying
sentences under the 20-to-500 rule, yet `calculate_coherence` returns
0.5575, not 0.5. -/
theorem C4_counterexample :
    50 ≤ textC4x.length ∧ (split_sentences textC4x).length = 0 ∧
      calculate_coherence textC4x ≠ 0.5 := by
  refine ⟨by decide, by decide, by decide⟩

theorem C4_witness : calculate_coherence textC4w = 0.5 :=
  C4_coherence_half textC4w (by decide) (by decide)

/-- C5 (amended): the final coherence sum is not explicitly clamped to
[0,1], but it can never exceed 1: the four weighted components are bounded
by 0.25, 0.35, 0.30 and 0.01, so `calculate_coherence` is always < 1. -/
theorem C5_coherence_bounded : ∀ t : String, calculate_coherence t < 1 :=
  calculate_coherence_lt_one

/-- C5 counterexample: no input text makes `calculate_coherence` return a
value strictly greater than 1 (negation of the claimed existence). -/
theorem C5_counterexample : ¬ ∃ t : String, 1 < calculate_coherence t := by
  rintro ⟨t, ht⟩
  exact absurd ht (not_lt.2 (le_of_lt (calculate_coherence_lt_one t)))

/-- C6: with fewer than 2 agents, `analyze_responses` immediately returns
the degenerate result: concepts = [], claims = [], confidence = 0,
divergences = [], insights = {} and emergent_insights = []. -/
theorem C6_degenerate (thr : ℚ) (rs : List (String × ResponseData))
    (h : rs.length < 2) :
    analyze_responses thr rs =
      { consensus := { concepts := [], claims := [], confidence := 0 },
        divergences := [], insights := [], emergent_insights := [] } := by
  unfold analyze_responses
  rw [if_pos h]

theorem C6_witness :
    analyze_responses 0.5 [] =
      { consensus := { concepts := [], claims := [], confidence := 0 },
        divergences := [], insights := [], emergent_insights := [] } :=
  C6_degenerate 0.5 [] (by decide)

/-- C7: every text shorter than 50 characters (including the empty text)
gets `calculate_entropy = 0` and `calculate_coherence = 0`, and every text
shorter than 100 characters gets `extract_claims = []`; all three
operations are total functions of the text, so they never raise. -/
theorem C7_short_inputs (t : String) :
    (t.length < 50 → calculate_entropy t = 0 ∧ calculate_coherence t = 0) ∧
    (t.length < 100 → extract_claims t = []) := by
  refine ⟨fun h => ⟨?_, ?_⟩, fun h => ?_⟩
  · unfold calculate_entropy
    rw [if_pos (Or.inr h)]
  · unfold calculate_coherence
    rw [if_pos (Or.inr h)]
  · unfold extract_claims
    rw [if_pos (Or.inr h)]

theorem C7_witness :
    calculate_entropy "" = 0 ∧ calculate_coherence "" = 0 ∧ extract_claims "" = [] :=
  ⟨((C7_short_inputs "").1 (by decide)).1, ((C7_short_inputs "").1 (by decide)).2,
    (C7_short_inputs "").2 (by decide)⟩

/-- C9: for every text and every epsilon > 0, the score field of
`calculate_lmc_score` is exactly `C / (H + epsilon)` with the `H` and `C`
fields of the same call. -/
theorem C9_score_ratio (t : String) (epsilon : ℝ) (heps : 0 < epsilon) :
    (calculate_lmc_score epsilon t).score =
      (calculate_lmc_score epsilon t).C /
        ((calculate_lmc_score epsilon t).H + epsilon) := rfl

theorem C9_witness :
    (0 : ℝ) < 1 ∧
      (calculate_lmc_score 1 "abc").score =
        (calculate_lmc_score 1 "abc").C / ((calculate_lmc_score 1 "abc").H + 1) :=
  ⟨by norm_num, C9_score_ratio "abc" 1 (by norm_num)⟩

/-- C8: on every input, `analyze_responses` returns at most 30 consensus
concepts, at most 15 consensus claims, at most 10 emergent insights, and
no divergence with more than 10 concepts. -/
theorem C8_caps (thr : ℚ) (rs : List (String × ResponseData)) :
    (analyze_responses thr rs).consensus.concepts.length ≤ 30 ∧
    (analyze_responses thr rs).consensus.claims.length ≤ 15 ∧
    (analyze_responses thr rs).emergent_insights.length ≤ 10 ∧
    (analyze_responses thr rs).divergences.all
      (fun d => decide (d.concepts.length ≤ 10)) = true := by
  unfold analyze_responses
  split
  · simp
  · refine ⟨?_, ?_, ?_, ?_⟩
    · unfold find_consensus_concepts
      exact List.length_take_le _ _
    · unfold find_consensus_claims
      exact List.length_take_le _ _
    · unfold find_emergent_insights
      exact List.length_take_le _ _
    · rw [List.all_eq_true]
      intro d hd
      rw [decide_eq_true_eq]
      unfold find_divergences at hd
      rw [mem_sortKeyDesc] at hd
      rcases List.mem_filterMap.1 hd with ⟨p, _, hpd⟩
      unfold divergence_for at hpd
      split at hpd
      · exact absurd hpd (by simp)
      · have hd_eq := (Option.some.inj hpd).symm
        subst hd_eq
        exact List.length_take_le _ _

/-- The concept list built in `_find_divergences` is ordered by descending
local frequency (it filters a stable descending sort by count). -/
theorem pairwise_unique_concepts (consensus : List String) (content : String) :
    (unique_concepts consensus content).Pairwise fun a b =>
      (findWords 4 content).count b ≤ (findWords 4 content).count a := by
  unfold unique_concepts
  rw [List.pairwise_map]
  have h1 := pairwise_sortKeyDesc (Prod.snd : String × ℕ → ℕ)
    (wordCounter (findWords 4 content))
  have h2 : (mostCommon 20 (wordCounter (findWords 4 content))).Pairwise
      fun p q => q.2 ≤ p.2 := by
    unfold mostCommon
    exact List.Pairwise.sublist (List.take_sublist _ _) h1
  have h3 : ((mostCommon 20 (wordCounter (findWords 4 content))).filter fun wc =>
      !(consensus.contains wc.1) && decide (2 ≤ wc.2)).Pairwise
      fun p q => q.2 ≤ p.2 :=
    List.Pairwise.sublist (List.filter_sublist _) h2
  refine h3.imp_of_mem ?_
  intro a b ha hb hab
  have hmem : ∀ x ∈ mostCommon 20 (wordCounter (findWords 4 content)),
      x ∈ wordCounter (findWords 4 content) := by
    intro x hx
    unfold mostCommon at hx
    exact (mem_sortKeyDesc _ _ _).1 ((List.take_sublist _ _).subset hx)
  have ha' := hmem a ((List.filter_sublist _).subset ha)
  have hb' := hmem b ((List.filter_sublist _).subset hb)
  rw [← wordCounter_snd_eq_count _ a ha', ← wordCounter_snd_eq_count _ b hb']
  exact hab

/-- C2 (amended): every divergence produced by `analyze_responses` comes
from an agent of the input; its concept list is the agent's qualifying
concepts capped to 10 and ordered by descending local frequency, and its
score is the number of qualifying concepts BEFORE the cap (up to 20)
divided by max(number of consensus concepts, 1). -/
theorem C2_divergence_spec (thr : ℚ) (rs : List (String × ResponseData))
    (d : Divergence) (hd : d ∈ (analyze_responses thr rs).divergences) :
    ∃ p ∈ rs, d.ai = p.1 ∧
      d.concepts = (unique_concepts (find_consensus_concepts rs) p.2.content).take 10 ∧
      d.score = ((unique_concepts (find_consensus_concepts rs) p.2.content).length : ℚ)
        / ((max (find_consensus_concepts rs).length 1 : ℕ) : ℚ) ∧
      d.concepts.length ≤ 10 ∧
      d.concepts.Pairwise fun a b =>
        (findWords 4 p.2.content).count b ≤ (findWords 4 p.2.content).count a := by
  unfold analyze_responses at hd
  split at hd
  · simp at hd
  · unfold find_divergences at hd
    rw [mem_sortKeyDesc] at hd
    rcases List.mem_filterMap.1 hd with ⟨p, hp, hpd⟩
    refine ⟨p, hp, ?_⟩
    unfold divergence_for at hpd
    split at hpd
    · exact absurd hpd (by simp)
    · have hd_eq := (Option.some.inj hpd).symm
      subst hd_eq
      refine ⟨rfl, rfl, rfl, List.length_take_le _ _, ?_⟩
      exact List.Pairwise.sublist (List.take_sublist _ _) (pairwise_unique_concepts _ _)

/-- C2 counterexample: on `inputC2` the single divergence has a capped
concept list of length 10 but score 11 (there is no consensus concept, so
the claimed score would be 10/max(0,1) = 10): the score is computed from
the uncapped list. -/
theorem C2_counterexample :
    ((analyze_responses 0.5 inputC2).divergences.map fun d =>
      (d.ai, d.concepts.length, d.score)) = [("alice", 10, 11)] ∧
    (analyze_responses 0.5 inputC2).consensus.concepts.length = 0 ∧
    (11 : ℚ) ≠ (10 : ℚ) /
      ((max (analyze_responses 0.5 inputC2).consensus.concepts.length 1 : ℕ) : ℚ) := by
  refine ⟨by decide, by decide, by decide⟩

theorem C2_witness :
    ∃ p ∈ inputC2, dC2.ai = p.1 ∧
      dC2.concepts = (unique_concepts (find_consensus_concepts inputC2) p.2.content).take 10 ∧
      dC2.score = ((unique_concepts (find_consensus_concepts inputC2) p.2.content).length : ℚ)
        / ((max (find_consensus_concepts inputC2).length 1 : ℕ) : ℚ) ∧
      dC2.concepts.length ≤ 10 ∧
      dC2.concepts.Pairwise fun a b =>
        (findWords 4 p.2.content).count b ≤ (findWords 4 p.2.content).count a :=
  C2_divergence_spec 0.5 inputC2 dC2 (by decide)

/-- Structural invariant of the pair loop of `_find_emergent_insights`:
every produced insight repeats one concept, pairs two distinct agents (for
duplicate-free agent names), carries equal rarities `1/total_freq1` with
`total_freq1 ≥ 2`, and a similarity in (0, 1]. -/
theorem emergent_pairs_spec (n : ℕ) (allc : List (String × List (String × ℕ))) :
    ∀ l : List (String × List (String × ℕ)), l.Sublist allc →
      (l.map Prod.fst).Nodup →
      ∀ ins ∈ emergent_pairs n allc l,
        ins.concept1 = ins.concept2 ∧ ins.ai1 ≠ ins.ai2 ∧
        ins.rarity1 = ins.rarity2 ∧
        ins.rarity1 = 1 / (agents_containing allc ins.concept1 : ℚ) ∧
        2 ≤ agents_containing allc ins.concept1 ∧
        0 < ins.similarity ∧ ins.similarity ≤ 1 := by
  intro l
  induction l with
  | nil => intro _ _ ins hins; simp [emergent_pairs] at hins
  | cons hd rest ih =>
    intro hsub hnd ins hins
    obtain ⟨ai1, c1⟩ := hd
    rw [emergent_pairs] at hins
    rcases List.mem_append.1 hins with hins1 | hins2
    · rcases List.mem_flatMap.1 hins1 with ⟨q, hq, hinsq⟩
      obtain ⟨ai2, c2⟩ := q
      dsimp only at hinsq
      unfold insights_for at hinsq
      rcases List.mem_filterMap.1 hinsq with ⟨concept, hconcept, heq⟩
      rcases List.mem_filter.1 hconcept with ⟨hc1mem, hc2c⟩
      split at heq
      · rename_i hguard
        obtain ⟨htf, hf1, hf2⟩ := hguard
        have hins_eq := (Option.some.inj heq).symm
        subst hins_eq
        have hpred1 : (counterKeys c1).contains concept = true := by
          simpa using hc1mem
        have hkey2 : concept ∈ counterKeys c2 := by simpa using hc2c
        have hcount : 2 ≤ agents_containing allc concept := by
          unfold agents_containing
          have hmono := List.Sublist.countP_le
            (fun p => (counterKeys p.2).contains concept) hsub
          have hcons : List.countP (fun p => (counterKeys p.2).contains concept)
              ((ai1, c1) :: rest)
              = List.countP (fun p => (counterKeys p.2).contains concept) rest + 1 := by
            rw [List.countP_cons, if_pos hpred1]
          have hrest : 0 < List.countP
              (fun p => (counterKeys p.2).contains concept) rest :=
            List.countP_pos_iff.2 ⟨(ai2, c2), hq, by simpa using hkey2⟩
          omega
        refine ⟨rfl, ?_, rfl, rfl, hcount, ?_, ?_⟩
        · show ai1 ≠ ai2
          intro hcontr
          rw [List.map_cons, List.nodup_cons] at hnd
          refine hnd.1 ?_
          rw [hcontr]
          exact List.mem_map.2 ⟨(ai2, c2), hq, rfl⟩
        · exact div_pos (by exact_mod_cast (by omega :
              0 < min (counterVal c1 concept) (counterVal c2 concept)))
            (by exact_mod_cast (by omega :
              0 < max (counterVal c1 concept) (counterVal c2 concept)))
        · rw [div_le_one (by exact_mod_cast (by omega :
              0 < max (counterVal c1 concept) (counterVal c2 concept)))]
          exact_mod_cast min_le_max
      · exact absurd heq (by simp)
    · have hsub' : rest.Sublist allc := (List.sublist_cons_self _ _).trans hsub
      have hnd' : (rest.map Prod.fst).Nodup := by
        rw [List.map_cons, List.nodup_cons] at hnd
        exact hnd.2
      exact ih hsub' hnd' ins hins2

/-- C10: for duplicate-free agent names, every emergent insight of
`analyze_responses` has `concept1 = concept2`, two distinct agent names,
`rarity1 = rarity2 = 1 / (number of agents whose text contains the
concept)`, which is at most 1/2, and a similarity in (0, 1]. -/
theorem C10_insight_invariants (thr : ℚ) (rs : List (String × ResponseData))
    (hnd : (rs.map Prod.fst).Nodup) :
    ∀ ins ∈ (analyze_responses thr rs).emergent_insights,
      ins.concept1 = ins.concept2 ∧ ins.ai1 ≠ ins.ai2 ∧ ins.rarity1 = ins.rarity2 ∧
      ins.rarity1 = 1 / (agents_containing (ai_concepts rs) ins.concept1 : ℚ) ∧
      ins.rarity1 ≤ 1 / 2 ∧ 0 < ins.similarity ∧ ins.similarity ≤ 1 := by
  intro ins hins
  have h1 : ins ∈ find_emergent_insights rs := by
    unfold analyze_responses at hins
    split at hins
    · simp at hins
    · exact hins
  unfold find_emergent_insights at h1
  have h2 := (List.take_sublist _ _).subset h1
  rw [mem_sortKeyDesc] at h2
  have hnd' : ((ai_concepts rs).map Prod.fst).Nodup := by
    unfold ai_concepts
    rw [List.map_map]
    exact hnd
  obtain ⟨ha, hb, hc, hrar, htf, he, hf⟩ :=
    emergent_pairs_spec rs.length (ai_concepts rs) (ai_concepts rs)
      (List.Sublist.refl _) hnd' ins h2
  refine ⟨ha, hb, hc, hrar, ?_, he, hf⟩
  rw [hrar]
  have h2le : (2 : ℚ) ≤ (agents_containing (ai_concepts rs) ins.concept1 : ℚ) := by
    exact_mod_cast htf
  simpa using one_div_le_one_div_of_le (by norm_num : (0 : ℚ) < 2) h2le

theorem C10_witness :
    insC10.concept1 = insC10.concept2 ∧ insC10.ai1 ≠ insC10.ai2 ∧
    insC10.rarity1 = insC10.rarity2 ∧
    insC10.rarity1 = 1 / (agents_containing (ai_concepts inputC10) insC10.concept1 : ℚ) ∧
    insC10.rarity1 ≤ 1 / 2 ∧ 0 < insC10.similarity ∧ insC10.similarity ≤ 1 :=
  C10_insight_invariants 0.5 inputC10 (by decide) insC10 (by decide)
